import Mathlib

/-!
Verification development for the SEC 8-K press-release extraction script
(`Articoli_Sec_8k.py`).  The Python functions are shallowly embedded as
executable Lean definitions: strings are Lean `String`s, machine operations
on them are spelled out over `List Char`, the `requests` responses are a
`Resp` structure, and the BeautifulSoup document is a tree of `Node`s.
-/

namespace Sec8K

/-! ## Python string primitives -/

/-- ASCII fragment of Python's regex class `\s` and of `str.strip()`'s
whitespace set: space, tab, newline, carriage return, vertical tab, form
feed.  All strings handled by the script are ASCII. -/
def pyIsSpace (c : Char) : Bool :=
  c == ' ' || c == '\t' || c == '\n' || c == '\r' || c == '\x0b' || c == '\x0c'

/-- ASCII lower-casing of one character, as `str.lower()` acts on ASCII. -/
def lowerChar (c : Char) : Char :=
  if 'A' ≤ c && c ≤ 'Z' then Char.ofNat (c.toNat + 32) else c

/-- `str.lower()` on an ASCII string. -/
def myLower (s : String) : String := ⟨s.data.map lowerChar⟩

/-- Is the first list a prefix of the second (character-wise)? -/
def listPrefixOf : List Char → List Char → Bool
  | [], _ => true
  | _ :: _, [] => false
  | a :: as, b :: bs => a == b && listPrefixOf as bs

/-- Is `n` a contiguous sublist of `hay`?  Models Python's `n in hay`
substring test. -/
def listSubOf (n : List Char) : List Char → Bool
  | [] => n.isEmpty
  | c :: t => listPrefixOf n (c :: t) || listSubOf n t

/-- Python's `needle in hay` on strings. -/
def strHasSub (hay needle : String) : Bool := listSubOf needle.data hay.data

/-- Python's `s.endswith(suf)`. -/
def strEndsWith (s suf : String) : Bool :=
  listPrefixOf suf.data.reverse s.data.reverse

/-- Remove trailing whitespace from a character list. -/
def stripTrail : List Char → List Char
  | [] => []
  | c :: cs =>
    let r := stripTrail cs
    if r.isEmpty && pyIsSpace c then [] else c :: r

/-- Python's `s.strip()` on a character list: drop leading and trailing
whitespace. -/
def stripL (cs : List Char) : List Char := stripTrail (cs.dropWhile pyIsSpace)

/-- Python's `s.strip()`. -/
def pyStrip (s : String) : String := ⟨stripL s.data⟩

/-- State machine for `re.sub(r"\s+", " ", s)`: every maximal run of
whitespace becomes a single space.  The flag records whether the previous
character was whitespace. -/
def collapseGo : Bool → List Char → List Char
  | _, [] => []
  | prevWs, c :: cs =>
    if pyIsSpace c then
      if prevWs then collapseGo true cs else ' ' :: collapseGo true cs
    else c :: collapseGo false cs

/-- `re.sub(r"\s+", " ", s)`. -/
def collapseRuns (s : String) : String := ⟨collapseGo false s.data⟩

/-- Python's `v.replace(" ", "")`: delete space characters only (no other
whitespace is touched). -/
def removeSpaces (v : String) : String := ⟨v.data.filter (fun c => c != ' ')⟩

/-- Deletion of every whitespace character (used only to state the spec's
whitespace-independent matching, which the code does not implement). -/
def stripAllWs (v : String) : String := ⟨v.data.filter (fun c => !pyIsSpace c)⟩

/-! ## Attachment descriptors, scoring and selection -/

/-- One entry of a filing manifest (`index.json` `directory.item` element).
`none` in a field models a JSON `null` value or an absent key: the script
reads both through `item.get(k, "")`/`(s or "")`, which yield `""`. -/
structure Item where
  name : Option String
  type : Option String
  size : Nat := 0
deriving Repr, DecidableEq

/-- `normalize(s)` from the source: `re.sub(r"\s+", " ", (s or "").lower()).strip()`. -/
def normalize (s : Option String) : String :=
  pyStrip (collapseRuns (myLower (s.getD "")))

/-- `is_text_file(name)` from the source: lower-case the raw name and test
the textual extensions. -/
def is_text_file (name : Option String) : Bool :=
  let n := myLower (name.getD "")
  strEndsWith n ".htm" || strEndsWith n ".html" || strEndsWith n ".txt"

/-- `PRESS_KEYWORDS` from the source. -/
def PRESS_KEYWORDS : List String :=
  ["press release", "earnings release", "news release",
   "conference call", "prepared remarks", "investor presentation"]

/-- `score_item(item)` from the source, as the same sequence of conditional
accumulations. -/
def score_item (item : Item) : Int :=
  let name := normalize item.name
  let typ := normalize item.type
  let score : Int := 0
  let score := if strHasSub typ "99.1" || strHasSub typ "99.01" || strHasSub typ "ex-99" then score + 100 else score
  let score := if strHasSub typ "ex-99.1" || strHasSub typ "ex-99.01" then score + 120 else score
  let score := if strHasSub name "ex99" || strHasSub name "ex-99" then score + 50 else score
  let score := if strHasSub name "99_1" || strHasSub name "99-1" || strHasSub name "99.1" || strHasSub name "9901" then score + 30 else score
  let score := PRESS_KEYWORDS.foldl (fun acc kw => if strHasSub name kw then acc + 20 else acc) score
  let score := if is_text_file item.name then score + 10 else score - 100
  score

/-- Python's `max(xs, key=f)` starting from a first element `b`: the
running maximum is replaced only on a strictly greater key, so the first
element attaining the maximum is returned. -/
def pyMax {α : Type} (f : α → Int) (b : α) : List α → α
  | [] => b
  | x :: xs => pyMax f (if f x > f b then x else b) xs

/-- The selection stage of `download_best_press_release`: filter to textual
files, take the score maximum (first wins on ties), reject below 20. -/
def selectBest (items : List Item) : Option Item :=
  match items.filter (fun it => is_text_file it.name) with
  | [] => none
  | c :: cs =>
    let best := pyMax score_item c cs
    if score_item best < 20 then none else some best

/-! ## Spec-side signal table (section 4.3 of the spec) -/

/-- Spec signal: strong type match, +100. -/
def sigStrongType (typ : String) : Int :=
  if strHasSub typ "99.1" || strHasSub typ "99.01" || strHasSub typ "ex-99" then 100 else 0

/-- Spec signal: stronger type match, +120, additive with the +100. -/
def sigStrongerType (typ : String) : Int :=
  if strHasSub typ "ex-99.1" || strHasSub typ "ex-99.01" then 120 else 0

/-- Spec signal: filename exhibit marker, +50. -/
def sigNameMarker (name : String) : Int :=
  if strHasSub name "ex99" || strHasSub name "ex-99" then 50 else 0

/-- Spec signal: filename numeric marker, +30. -/
def sigNameNumeric (name : String) : Int :=
  if strHasSub name "99_1" || strHasSub name "99-1" || strHasSub name "99.1" || strHasSub name "9901" then 30 else 0

/-- Spec signal: +20 per distinct press-terminology keyword contained in
the name. -/
def sigKeywords (name : String) : Int :=
  20 * ((PRESS_KEYWORDS.filter (fun kw => strHasSub name kw)).length : Int)

/-- Spec signal: textual/non-textual file, +10 or −100, here evaluated on
the string the caller passes in. -/
def sigTextual (name : String) : Int :=
  if strEndsWith name ".htm" || strEndsWith name ".html" || strEndsWith name ".txt" then 10 else -100

/-- The claim's reading of the spec table: every row, the extension row
included, is evaluated on the lower-cased whitespace-normalized copies of
`name` and `type`. -/
def specScore (it : Item) : Int :=
  sigStrongType (normalize it.type) + sigStrongerType (normalize it.type) +
  sigNameMarker (normalize it.name) + sigNameNumeric (normalize it.name) +
  sigKeywords (normalize it.name) + sigTextual (normalize it.name)

/-- The amended table: identical to `specScore` except that the textual
extension row is evaluated on the raw, merely lower-cased filename, as
`is_text_file` does in the source. -/
def specScoreRawExt (it : Item) : Int :=
  sigStrongType (normalize it.type) + sigStrongerType (normalize it.type) +
  sigNameMarker (normalize it.name) + sigNameNumeric (normalize it.name) +
  sigKeywords (normalize it.name) +
  (if is_text_file it.name then 10 else -100)

/-- Does the descriptor match any scoring signal other than the textual
extension bonus? -/
def hasNonExtSignal (it : Item) : Bool :=
  let name := normalize it.name
  let typ := normalize it.type
  strHasSub typ "99.1" || strHasSub typ "99.01" || strHasSub typ "ex-99" ||
  strHasSub typ "ex-99.1" || strHasSub typ "ex-99.01" ||
  strHasSub name "ex99" || strHasSub name "ex-99" ||
  strHasSub name "99_1" || strHasSub name "99-1" || strHasSub name "99.1" || strHasSub name "9901" ||
  PRESS_KEYWORDS.any (fun kw => strHasSub name kw)

/-! ## The parsed document: BeautifulSoup's tree

The script only ever reads an element's tag name and its `style`
attribute, so a `Node` keeps exactly those plus the children. -/

mutual
/-- One node of the parsed document: a text node, or an element with its
tag name (lower-cased by the html.parser tree builder), its optional
`style` attribute value, and its children.  The sibling sequence is the
mutually defined `NodeList`. -/
inductive Node where
  | text : String → Node
  | elem : String → Option String → NodeList → Node
deriving Repr, DecidableEq
/-- A sequence of sibling nodes. -/
inductive NodeList where
  | nil : NodeList
  | cons : Node → NodeList → NodeList
deriving Repr, DecidableEq
end

/-- Build a `NodeList` from an ordinary list (convenience for literals). -/
def nodesOf : List Node → NodeList
  | [] => .nil
  | n :: ns => .cons n (nodesOf ns)

/-- The `decompose` sweeps of `clean_html_to_text`: delete every element
(together with its whole subtree) satisfying `p`, recursing into the
children of the elements that are kept. -/
def removeIf (p : String → Option String → Bool) : NodeList → NodeList
  | .nil => .nil
  | .cons (.text s) rest => .cons (.text s) (removeIf p rest)
  | .cons (.elem nm st ch) rest =>
    if p nm st then removeIf p rest
    else .cons (.elem nm st (removeIf p ch)) (removeIf p rest)

/-- All text leaves of the forest, in document order. -/
def textsOf : NodeList → List String
  | .nil => []
  | .cons (.text s) rest => s :: textsOf rest
  | .cons (.elem _ _ ch) rest => textsOf ch ++ textsOf rest

/-- Does every element of the forest (at any depth) satisfy `p`? -/
def allElemsOk (p : String → Option String → Bool) : NodeList → Bool
  | .nil => true
  | .cons (.text _) rest => allElemsOk p rest
  | .cons (.elem nm st ch) rest => p nm st && allElemsOk p ch && allElemsOk p rest

/-- Selector of the first sweep: `soup(["script", "style"])`. -/
def isScriptOrStyle (nm : String) (_st : Option String) : Bool :=
  nm == "script" || nm == "style"

/-- Selector of the second sweep: tag name lower-cased starts with `ix:`
(inline XBRL). -/
def isIxTag (nm : String) (_st : Option String) : Bool :=
  listPrefixOf ("ix:").data (myLower nm).data

/-- The style test of the third sweep, exactly as the source writes it:
`v and "display:none" in v.replace(" ", "").lower()`.  Only space
characters are deleted before the substring test. -/
def hiddenStyleMatch (st : Option String) : Bool :=
  match st with
  | none => false
  | some v => strHasSub (myLower (removeSpaces v)) "display:none"

/-- Selector of the third sweep: elements whose `style` matches. -/
def isHiddenElem (_nm : String) (st : Option String) : Bool :=
  hiddenStyleMatch st

/-- The style test as the spec words it: the match is independent of any
internal whitespace, of any kind, in the style string. -/
def specStyleHidden (v : String) : Bool :=
  strHasSub (myLower (stripAllWs v)) "display:none"

/-- The document after the three `decompose` sweeps of
`clean_html_to_text`, in source order: script/style, inline-XBRL, hidden. -/
def cleanedTree (doc : NodeList) : NodeList :=
  removeIf isHiddenElem (removeIf isIxTag (removeIf isScriptOrStyle doc))

/-- `soup.get_text(separator=" ", strip=True)`: each text leaf is
stripped, empties are dropped, the rest are joined with single spaces. -/
def get_text (l : NodeList) : String :=
  String.intercalate " " (((textsOf l).map pyStrip).filter (fun s => !s.isEmpty))

/-- `clean_html_to_text` on an already-parsed document: the three sweeps,
then text extraction, then `re.sub(r"\s+", " ", text).strip()`. -/
def clean_html_to_text (doc : NodeList) : String :=
  pyStrip (collapseRuns (get_text (cleanedTree doc)))

/-! ## The permissive HTML parse

`BeautifulSoup(content, "html.parser")` is modelled by a tokenizer plus a
stack tree-builder.  The model covers what the script's inputs exercise:
tag names are lower-cased, `style` attributes are kept (first occurrence,
double-quoted or unquoted values), the common character references
`&lt; &gt; &amp; &quot;` are decoded into the text (the stdlib parser runs
with `convert_charrefs=True`, merging decoded references into the
surrounding text), a `<` not introducing a tag is literal text, and stray
close tags are ignored.  Raw-text treatment of script contents and the
full named-reference table are outside the model; no theorem below
depends on them. -/

/-- One lexical token of the markup. -/
inductive Tok where
  | textT : String → Tok
  | openT : String → Option String → Bool → Tok
  | closeT : String → Tok
deriving Repr, DecidableEq

/-- ASCII letter test (a tag opens only on `<` followed by a letter). -/
def isAsciiAlpha (c : Char) : Bool := ('a' ≤ c && c ≤ 'z') || ('A' ≤ c && c ≤ 'Z')

/-- Decode a character reference sitting right after a `&`. -/
def decodeEnt (cs : List Char) : Option (Char × List Char) :=
  if listPrefixOf ("lt;").data cs then some ('<', cs.drop 3)
  else if listPrefixOf ("gt;").data cs then some ('>', cs.drop 3)
  else if listPrefixOf ("amp;").data cs then some ('&', cs.drop 4)
  else if listPrefixOf ("quot;").data cs then some ('"', cs.drop 5)
  else none

/-- Attribute scan inside a start tag: walks to the closing `>`, keeping
the first `style` value; reports whether the tag ends in `/>`.  Returns
(style, self-closing, rest of input). -/
def parseAttrs : Nat → List Char → Option String → (Option String × Bool × List Char)
  | 0, cs, sty => (sty, false, cs)
  | fuel+1, cs, sty =>
    match cs.dropWhile pyIsSpace with
    | [] => (sty, false, [])
    | '>' :: r => (sty, false, r)
    | '/' :: r =>
      (match r.dropWhile pyIsSpace with
       | '>' :: r2 => (sty, true, r2)
       | _ => parseAttrs fuel r sty)
    | c :: r =>
      let rest0 := c :: r
      let anm := rest0.takeWhile (fun d => !pyIsSpace d && d != '=' && d != '>' && d != '/')
      let r1 := (rest0.drop anm.length).dropWhile pyIsSpace
      match r1 with
      | '=' :: r2 =>
        let r3 := r2.dropWhile pyIsSpace
        (match r3 with
         | '"' :: v =>
           let val := v.takeWhile (fun d => d != '"')
           let r4 := (v.drop val.length).drop 1
           parseAttrs fuel r4 (if myLower ⟨anm⟩ == "style" && sty.isNone then some (⟨val⟩ : String) else sty)
         | _ =>
           let val := r3.takeWhile (fun d => !pyIsSpace d && d != '>')
           let r4 := r3.drop val.length
           parseAttrs fuel r4 (if myLower ⟨anm⟩ == "style" && sty.isNone then some (⟨val⟩ : String) else sty))
      | _ => parseAttrs fuel r1 sty

/-- Emit the pending text buffer (reversed) together with any remaining
input as a single text token, if non-empty. -/
def flushText (buf cs : List Char) : List Tok :=
  let l := buf.reverse ++ cs
  if l.isEmpty then [] else [Tok.textT ⟨l⟩]

/-- The tokenizer.  The fuel only bounds the recursion; with fuel at least
the input length plus one it is never exhausted. -/
def tokAux : Nat → List Char → List Char → List Tok
  | 0, cs, buf => flushText buf cs
  | _ + 1, [], buf => flushText buf []
  | fuel+1, c :: rest, buf =>
    if c == '&' then
      match decodeEnt rest with
      | some (d, rest2) => tokAux fuel rest2 (d :: buf)
      | none => tokAux fuel rest ('&' :: buf)
    else if c == '<' then
      match rest with
      | '/' :: r2 =>
        if isAsciiAlpha (r2.headD ' ') then
          let nm := r2.takeWhile (fun d => !pyIsSpace d && d != '>')
          let r3 := (r2.dropWhile (fun d => d != '>')).drop 1
          flushText buf [] ++ (Tok.closeT (myLower ⟨nm⟩) :: tokAux fuel r3 [])
        else tokAux fuel rest ('<' :: buf)
      | _ =>
        if isAsciiAlpha (rest.headD ' ') then
          let nm := rest.takeWhile (fun d => !pyIsSpace d && d != '>' && d != '/')
          let r2 := rest.drop nm.length
          match parseAttrs r2.length r2 none with
          | (sty, selfc, r3) =>
            flushText buf [] ++ (Tok.openT (myLower ⟨nm⟩) sty selfc :: tokAux fuel r3 [])
        else tokAux fuel rest ('<' :: buf)
    else tokAux fuel rest (c :: buf)

/-- Tokenize a whole string. -/
def tokenize (s : String) : List Tok := tokAux (s.data.length + 1) s.data []

/-- One open element under construction: its name, style, and the nodes
accumulated before it opened (reversed). -/
structure Frame where
  nm : String
  st : Option String
  acc : List Node
deriving Repr

/-- Is a tag of this name currently open? -/
def stackHasTag (nm : String) : List Frame → Bool
  | [] => false
  | f :: fs => f.nm == nm || stackHasTag nm fs

/-- End of input: close every still-open element. -/
def closeFrames : List Frame → List Node → List Node
  | [], acc => acc.reverse
  | f :: fs, acc => closeFrames fs (Node.elem f.nm f.st (nodesOf acc.reverse) :: f.acc)

/-- A close tag: pop (and close) open elements until the matching name. -/
def popTo (nm : String) : List Frame → List Node → (List Frame × List Node)
  | [], acc => ([], acc)
  | f :: fs, acc =>
    let node := Node.elem f.nm f.st (nodesOf acc.reverse)
    if f.nm == nm then (fs, node :: f.acc)
    else popTo nm fs (node :: f.acc)

/-- The stack tree-builder over the token list. -/
def build : List Tok → List Frame → List Node → List Node
  | [], stack, acc => closeFrames stack acc
  | Tok.textT s :: rest, stack, acc => build rest stack (Node.text s :: acc)
  | Tok.openT nm st true :: rest, stack, acc => build rest stack (Node.elem nm st .nil :: acc)
  | Tok.openT nm st false :: rest, stack, acc => build rest (⟨nm, st, acc⟩ :: stack) []
  | Tok.closeT nm :: rest, stack, acc =>
    if stackHasTag nm stack then
      match popTo nm stack acc with
      | (stack2, acc2) => build rest stack2 acc2
    else build rest stack acc

/-- The modelled `BeautifulSoup(content, "html.parser")` document. -/
def parseHtml (s : String) : NodeList := nodesOf (build (tokenize s) [] [])

/-- `clean_html_to_text` on raw input text: parse, then clean. -/
def clean_html_to_text_str (s : String) : String :=
  clean_html_to_text (parseHtml s)

/-- No character of the string can open a tag or a character reference
when the string is re-parsed. -/
def noMarkupChars (s : String) : Bool := s.data.all (fun c => c != '<' && c != '&')

/-- Shape invariant of whitespace-collapsed text: every whitespace is a
single `' '` and two whitespace characters are never adjacent.  The flag
records whether the previous character was a space. -/
def collapsedShape : Bool → List Char → Bool
  | _, [] => true
  | b, c :: cs =>
    if c == ' ' then !b && collapsedShape true cs
    else !pyIsSpace c && collapsedShape false cs

/-- Shape invariant of collapsed-and-stripped text, as a three-state
machine: state 0 at the start (whitespace forbidden), state 1 after a
non-whitespace character (a single space may follow), state 2 right after
a space (a non-whitespace character must follow). -/
def cleanShape : Nat → List Char → Bool
  | 0, [] => true
  | 0, c :: cs => !pyIsSpace c && cleanShape 1 cs
  | 1, [] => true
  | 1, c :: cs => if c == ' ' then cleanShape 2 cs else !pyIsSpace c && cleanShape 1 cs
  | 2, [] => false
  | 2, c :: cs => !pyIsSpace c && cleanShape 1 cs
  | _ + 3, _ => false

/-! ## Rate-limited fetch, JSON decode, and the filing processor

A network interaction is modelled by a stream `Nat → Resp`: the response
the remote side would give to the i-th attempt.  Connection-level
exceptions are outside the model; every attempt yields a `Resp`. -/

/-- Statuses `get_with_retry` retries on: 429, or `status_code >= 500`. -/
def retryable (st : Nat) : Bool := st == 429 || decide (500 ≤ st)

/-- The loop of `get_with_retry(url, tries)`, returning the index of the
attempt whose response the function returns.  With `tries = 0` the Python
loop body never runs and `None` is returned.  On the final attempt the
response is returned whether or not it is retryable: the loop ends and the
function returns `last`. -/
def get_with_retry_idx (status : Nat → Nat) : Nat → Nat → Option Nat
  | _, 0 => none
  | i, 1 => some i
  | i, fuel+2 => if retryable (status i) then get_with_retry_idx status (i+1) (fuel+1) else some i

/-- The increasing backoff slept before re-attempting: `1.0 + i * 1.5`
seconds after the i-th failed attempt. -/
def retryDelay (i : Nat) : ℚ := 1 + (3 / 2) * i

/-- The parsed JSON body of an `index.json` manifest: the optional
`directory.item` list (absent keys at either level read as `[]` through
`data.get("directory", {}).get("item", [])`). -/
structure Manifest where
  directoryItem : Option (List Item)
deriving Repr, DecidableEq

/-- One HTTP response: its status, the JSON value of its body if the body
decodes as JSON, and its body parsed as markup. -/
structure Resp where
  status : Nat
  jsonBody : Option Manifest := none
  content : NodeList := .nil
deriving Repr, DecidableEq

/-- `get_with_retry(url)` at its default `tries=4`, on a response stream. -/
def get_with_retry (resp : Nat → Resp) (tries : Nat) : Option Resp :=
  (get_with_retry_idx (fun i => (resp i).status) 0 tries).map resp

/-- `get_json(url)`: fetch with retry, `raise_for_status()` (an exception
for any 4xx/5xx final status), then `r.json()` (an exception when the body
is not valid JSON).  Exceptions are the `Except.error` branch. -/
def get_json (resp : Nat → Resp) : Except String Manifest :=
  match get_with_retry resp 4 with
  | none => Except.error "AttributeError"
  | some r =>
    if 400 ≤ r.status ∧ r.status < 600 then Except.error "HTTPError"
    else
      match r.jsonBody with
      | none => Except.error "JSONDecodeError"
      | some j => Except.ok j

/-- `str(int(cik))` on a decimal CIK string: drop leading zeros. -/
def cik_short (cik : String) : String :=
  let t := cik.data.dropWhile (fun c => c == '0')
  if t.isEmpty then "0" else ⟨t⟩

/-- `accession.replace("-", "")`. -/
def accession_clean (a : String) : String := ⟨a.data.filter (fun c => c != '-')⟩

/-- Base of the EDGAR archive URLs built by the script. -/
def SEC_ARCHIVE : String := "https://www.sec.gov/Archives/edgar/data/"

/-- `list_accession_files`: the manifest items, with every exception of
`get_json` (transport, HTTP error status, JSON decode) swallowed by the
`try/except` into the empty list. -/
def list_accession_files (resp : Nat → Resp) : List Item :=
  match get_json resp with
  | Except.error _ => []
  | Except.ok m => m.directoryItem.getD []

/-- The record `download_best_press_release` returns on success. -/
structure Record where
  ExhibitFile : String
  ExhibitType : String
  URL : String
  Text : String
deriving Repr, DecidableEq

/-- `download_best_press_release(cik, accession)`, parameterized by the
response stream of the manifest fetch and of the exhibit-content fetch. -/
def download_best_press_release (cik accession : String)
    (idxResp fileResp : Nat → Resp) : Option Record :=
  let items := list_accession_files idxResp
  if items.isEmpty then none
  else
    match items.filter (fun it => is_text_file it.name) with
    | [] => none
    | c :: cs =>
      let best := pyMax score_item c cs
      if score_item best < 20 then none
      else
        let filename := best.name.getD ""
        let filetype := best.type.getD ""
        let file_url := SEC_ARCHIVE ++ cik_short cik ++ "/" ++ accession_clean accession ++ "/" ++ filename
        match get_with_retry fileResp 4 with
        | none => none
        | some r =>
          if r.status ≠ 200 then none
          else
            let text := clean_html_to_text r.content
            if text.length < 1000 then none
            else some ⟨filename, filetype, file_url, text⟩

/-! ## Helper lemmas -/

/-- The keyword loop of `score_item` adds 20 for each matching keyword. -/
theorem keyword_foldl (name : String) (l : List String) : ∀ (s : Int),
    l.foldl (fun acc kw => if strHasSub name kw then acc + 20 else acc) s
      = s + 20 * ((l.filter (fun kw => strHasSub name kw)).length : Int) := by
  induction l with
  | nil => intro s; simp
  | cons kw t ih =>
    intro s
    by_cases h : strHasSub name kw = true
    · simp only [List.foldl_cons, List.filter_cons, h, if_pos, ite_true, ih, List.length_cons]
      push_cast
      ring
    · simp only [List.foldl_cons, List.filter_cons, h, Bool.false_eq_true, if_false, ite_false, ih]

/-- `pyMax` returns an element of the list that is maximal for `f`, and it
is the first maximal one: everything before it in the list is strictly
smaller, everything after it is no larger. -/
theorem pyMax_spec {α : Type} (f : α → Int) : ∀ (xs : List α) (b : α),
    ∃ l₁ l₂, b :: xs = l₁ ++ pyMax f b xs :: l₂ ∧
      (∀ x ∈ l₁, f x < f (pyMax f b xs)) ∧
      (∀ x ∈ l₂, f x ≤ f (pyMax f b xs)) := by
  intro xs
  induction xs with
  | nil =>
    intro b
    exact ⟨[], [], by simp [pyMax], by simp, by simp⟩
  | cons x t ih =>
    intro b
    by_cases h : f x > f b
    · have hstep : pyMax f b (x :: t) = pyMax f x t := by simp [pyMax, h]
      obtain ⟨l₁, l₂, heq, hlt, hle⟩ := ih x
      set w := pyMax f x t with hw
      have hxle : f x ≤ f w := by
        rcases l₁ with _ | ⟨a, l₁t⟩
        · have hpair : x = w ∧ t = l₂ := by simpa using heq
          rw [hpair.1]
        · have hx : x = a := by simpa using congrArg List.head? heq
          exact le_of_lt (by rw [hx]; exact hlt a (by simp))
      refine ⟨b :: l₁, l₂, ?_, ?_, ?_⟩
      · rw [hstep, List.cons_append, ← heq]
      · intro y hy
        rcases List.mem_cons.mp hy with hyb | hyl
        · rw [hyb, hstep]
          exact lt_of_lt_of_le h hxle
        · rw [hstep]
          exact hlt y hyl
      · intro y hy
        rw [hstep]
        exact hle y hy
    · have hstep : pyMax f b (x :: t) = pyMax f b t := by simp [pyMax, h]
      have hxb : f x ≤ f b := not_lt.mp h
      obtain ⟨l₁, l₂, heq, hlt, hle⟩ := ih b
      set w := pyMax f b t with hw
      rcases l₁ with _ | ⟨a, l₁t⟩
      · have hpair : b = w ∧ t = l₂ := by simpa using heq
        refine ⟨[], x :: l₂, ?_, by simp, ?_⟩
        · rw [hstep, ← hpair.1, ← hpair.2]
          rfl
        · intro y hy
          rw [hstep]
          rcases List.mem_cons.mp hy with hyx | hyl
          · rw [hyx, ← hpair.1]
            exact hxb
          · exact hle y hyl
      · have hba : b = a := by simpa using congrArg List.head? heq
        have ht : t = l₁t ++ w :: l₂ := by
          have := congrArg List.tail heq
          simpa using this
        have hbw : f b < f w := by rw [hba]; exact hlt a (by simp)
        refine ⟨b :: x :: l₁t, l₂, ?_, ?_, ?_⟩
        · rw [hstep]
          show b :: x :: t = b :: x :: (l₁t ++ w :: l₂)
          rw [← ht]
        · intro y hy
          rw [hstep]
          rcases List.mem_cons.mp hy with hyb | hy2
          · rw [hyb]; exact hbw
          · rcases List.mem_cons.mp hy2 with hyx | hyl
            · rw [hyx]; exact lt_of_le_of_lt hxb hbw
            · exact hlt y (by simp [hyl])
        · intro y hy
          rw [hstep]
          exact hle y hy

/-- `pyMax` returns an element of the candidate list. -/
theorem pyMax_mem {α : Type} (f : α → Int) (xs : List α) (b : α) :
    pyMax f b xs ∈ b :: xs := by
  obtain ⟨l₁, l₂, heq, _, _⟩ := pyMax_spec f xs b
  rw [heq]
  simp

/-- When `selectBest` returns a descriptor, that descriptor survived the
textual filter and scored at least 20. -/
theorem selectBest_some (items : List Item) (d : Item)
    (h : selectBest items = some d) :
    d ∈ items.filter (fun it => is_text_file it.name) ∧ 20 ≤ score_item d := by
  unfold selectBest at h
  rcases hfil : items.filter (fun it => is_text_file it.name) with _ | ⟨c, cs⟩
  · rw [hfil] at h
    exact absurd h (by simp)
  · rw [hfil] at h
    by_cases hs : score_item (pyMax score_item c cs) < 20
    · simp only [hs, if_pos, ite_true] at h
      exact absurd h (by simp)
    · simp only [hs, if_neg, ite_false, Option.some.injEq] at h
      refine ⟨?_, ?_⟩
      · rw [hfil, ← h]
        exact pyMax_mem score_item cs c
      · rw [← h]
        exact not_lt.mp hs

/-- A textual candidate with no other matching signal scores exactly 10. -/
theorem score_item_ext_only (it : Item) (htext : is_text_file it.name = true)
    (hsig : hasNonExtSignal it = false) : score_item it = 10 := by
  simp only [hasNonExtSignal, Bool.or_eq_false_iff, List.any_eq_false] at hsig
  obtain ⟨⟨⟨⟨⟨⟨⟨⟨⟨⟨h1, h2⟩, h3⟩, h4⟩, h5⟩, h6⟩, h7⟩, h8⟩, h9⟩, h10⟩, hkw⟩ := hsig
  have hfil : PRESS_KEYWORDS.filter (fun kw => strHasSub (normalize it.name) kw) = [] := by
    rw [List.filter_eq_nil_iff]
    intro kw hkwm
    simp [hkw kw hkwm]
  simp only [score_item, keyword_foldl, h1, h2, h3, h4, h5, h6, h7, h8, h9, h10, hfil, htext,
    Bool.or_self, Bool.false_or, Bool.or_false, Bool.false_eq_true, if_false, ite_false, ite_true,
    List.length_nil]
  norm_num

/-! ## Claim theorems -/

/-- C1 (counterexample).  On the descriptor with name `"press release.htm "`
(note the trailing space) and empty type, the code's score (−80: keyword
+20, extension test failing on the raw name, −100) differs from the spec
table evaluated on whitespace-normalized copies (30: keyword +20,
extension +10). -/
theorem C1_counterexample :
    score_item ⟨some "press release.htm ", some "", 0⟩ = -80 ∧
    specScore ⟨some "press release.htm ", some "", 0⟩ = 30 ∧
    score_item ⟨some "press release.htm ", some "", 0⟩ ≠
      specScore ⟨some "press release.htm ", some "", 0⟩ := by
  refine ⟨by decide, by decide, by decide⟩

/-- C1 (amended).  For every attachment descriptor the score equals the
sum of the spec's signal table, with every row except the textual
extension row evaluated on lower-cased, whitespace-normalized copies of
name and type; the extension row (+10 / −100) is evaluated on the raw
name, lower-cased only. -/
theorem C1_score_matches_table (it : Item) : score_item it = specScoreRawExt it := by
  simp only [score_item, specScoreRawExt, sigStrongType, sigStrongerType, sigNameMarker,
    sigNameNumeric, sigKeywords, keyword_foldl]
  split_ifs <;> push_cast <;> ring

/-- C2.  On a non-empty filtered candidate list, the selection picks the
maximal-score candidate, the first one in manifest order on ties, and
returns it exactly when its score reaches the threshold 20. -/
theorem C2_selectBest_first_max (items : List Item)
    (h : items.filter (fun it => is_text_file it.name) ≠ []) :
    ∃ l₁ l₂ w, items.filter (fun it => is_text_file it.name) = l₁ ++ w :: l₂ ∧
      (∀ x ∈ l₁, score_item x < score_item w) ∧
      (∀ x ∈ l₂, score_item x ≤ score_item w) ∧
      selectBest items = (if score_item w < 20 then none else some w) := by
  rcases hfil : items.filter (fun it => is_text_file it.name) with _ | ⟨c, cs⟩
  · exact absurd hfil h
  · obtain ⟨l₁, l₂, heq, hlt, hle⟩ := pyMax_spec score_item cs c
    refine ⟨l₁, l₂, pyMax score_item c cs, ?_, hlt, hle, ?_⟩
    · rw [hfil, heq]
    · unfold selectBest
      rw [hfil]

/-- C2 (witness): on two textual candidates with equal scores the first
one wins and is returned, its score 60 clearing the threshold. -/
theorem C2_witness :
    ∃ l₁ l₂ w,
      ([⟨some "ex99a.htm", none, 0⟩, ⟨some "ex99b.htm", none, 0⟩] : List Item).filter
          (fun it => is_text_file it.name) = l₁ ++ w :: l₂ ∧
      (∀ x ∈ l₁, score_item x < score_item w) ∧
      (∀ x ∈ l₂, score_item x ≤ score_item w) ∧
      selectBest [⟨some "ex99a.htm", none, 0⟩, ⟨some "ex99b.htm", none, 0⟩] =
        (if score_item w < 20 then none else some w) :=
  C2_selectBest_first_max _ (by decide)

/-- C3.  The retry loop returns the first non-retryable response when one
occurs within the 4 attempts; when every attempt is retryable (429/5xx) it
returns the fourth and last response instead of raising; and the backoff
delay strictly increases from attempt to attempt. -/
theorem C3_retry (status : Nat → Nat) (k : Nat) :
    (k < 4 → (∀ i, i < k → retryable (status i) = true) → retryable (status k) = false →
      get_with_retry_idx status 0 4 = some k) ∧
    ((∀ i, i < 4 → retryable (status i) = true) → get_with_retry_idx status 0 4 = some 3) ∧
    (∀ i j : Nat, i < j → retryDelay i < retryDelay j) := by
  refine ⟨?_, ?_, ?_⟩
  · intro hk hpre hk0
    interval_cases k
    · simp [get_with_retry_idx, hk0]
    · simp [get_with_retry_idx, hpre 0 (by omega), hk0]
    · simp [get_with_retry_idx, hpre 0 (by omega), hpre 1 (by omega), hk0]
    · simp [get_with_retry_idx, hpre 0 (by omega), hpre 1 (by omega), hpre 2 (by omega), hk0]
  · intro hall
    simp [get_with_retry_idx, hall 0 (by omega), hall 1 (by omega), hall 2 (by omega)]
  · intro i j hij
    unfold retryDelay
    have hq : (i : ℚ) < (j : ℚ) := by exact_mod_cast hij
    have := mul_lt_mul_of_pos_left hq (show (0 : ℚ) < 3 / 2 by norm_num)
    linarith

/-- C3 (witness): statuses [429, 429, 200, …] return the third response;
statuses all 500 return the fourth; the backoff grows. -/
theorem C3_witness :
    get_with_retry_idx (fun i => [429, 429, 200, 200].getD i 0) 0 4 = some 2 ∧
    get_with_retry_idx (fun _ => 500) 0 4 = some 3 ∧
    retryDelay 0 < retryDelay 1 :=
  ⟨(C3_retry (fun i => [429, 429, 200, 200].getD i 0) 2).1 (by decide) (by decide) (by decide),
   (C3_retry (fun _ => 500) 0).2.1 (fun i _ => by decide),
   (C3_retry (fun _ => 500) 0).2.2 0 1 (by decide)⟩

/-- C4.  A descriptor returned by the selection always carries one of the
textual extensions `.htm`, `.html`, `.txt` on its lower-cased name, and an
empty filtered candidate list yields `none`. -/
theorem C4_textual_winner (items : List Item) (d : Item) :
    (selectBest items = some d →
      (strEndsWith (myLower (d.name.getD "")) ".htm" = true ∨
       strEndsWith (myLower (d.name.getD "")) ".html" = true ∨
       strEndsWith (myLower (d.name.getD "")) ".txt" = true)) ∧
    (items.filter (fun it => is_text_file it.name) = [] → selectBest items = none) := by
  constructor
  · intro hsel
    have hm := (selectBest_some items d hsel).1
    have htf : is_text_file d.name = true := by
      have := List.mem_filter.mp hm
      simpa using this.2
    have hdisj := htf
    simp only [is_text_file, Bool.or_eq_true] at hdisj
    tauto
  · intro hfil
    unfold selectBest
    rw [hfil]

/-- C4 (witness): the winning exhibit of a mixed manifest is textual and a
manifest with only a PDF yields `none`. -/
theorem C4_witness :
    (strEndsWith (myLower ((some "ex99a.htm" : Option String).getD "")) ".htm" = true ∨
     strEndsWith (myLower ((some "ex99a.htm" : Option String).getD "")) ".html" = true ∨
     strEndsWith (myLower ((some "ex99a.htm" : Option String).getD "")) ".txt" = true) ∧
    selectBest [⟨some "doc.pdf", some "EX-99.1", 0⟩] = none :=
  ⟨(C4_textual_winner [⟨some "doc.pdf", some "EX-99.1", 0⟩, ⟨some "ex99a.htm", none, 0⟩]
      ⟨some "ex99a.htm", none, 0⟩).1 (by decide),
   (C4_textual_winner [⟨some "doc.pdf", some "EX-99.1", 0⟩] ⟨some "doc.pdf", some "EX-99.1", 0⟩).2
      (by decide)⟩

/-- C9.  Missing or null name/type fields never fault: they are read as
the empty string by filtering, normalization and scoring, and a descriptor
without a name is excluded by the textual filter, leaving the selection on
the other descriptors unchanged. -/
theorem C9_null_fields (t : Option String) (n : Nat) (items : List Item) :
    is_text_file none = false ∧ normalize none = "" ∧
    score_item ⟨none, t, n⟩ = score_item ⟨some "", t, n⟩ ∧
    selectBest (⟨none, t, n⟩ :: items) = selectBest items := by
  refine ⟨rfl, rfl, rfl, ?_⟩
  have h : is_text_file (Item.mk none t n).name = false := rfl
  unfold selectBest
  rw [List.filter_cons_of_neg (by simp [h])]

/-- C10.  A candidate whose only signal is its textual extension scores
exactly 10, short of the 20 threshold; consequently any descriptor the
selection returns matched at least one non-extension signal. -/
theorem C10_extension_alone_insufficient (it : Item) (items : List Item) (d : Item) :
    (is_text_file it.name = true → hasNonExtSignal it = false → score_item it = 10) ∧
    (selectBest items = some d → hasNonExtSignal d = true) := by
  constructor
  · exact fun h1 h2 => score_item_ext_only it h1 h2
  · intro hsel
    obtain ⟨hm, hs⟩ := selectBest_some items d hsel
    have htf : is_text_file d.name = true := by
      have := List.mem_filter.mp hm
      simpa using this.2
    by_contra hne
    have hzero : hasNonExtSignal d = false := by
      cases hx : hasNonExtSignal d
      · rfl
      · exact absurd hx hne
    have := score_item_ext_only d htf hzero
    omega

/-- C10 (witness): a plain `info.htm` scores 10 and is not selected, and
the selected `ex99a.htm` carries a non-extension signal. -/
theorem C10_witness :
    score_item ⟨some "info.htm", some "GRAPHIC", 0⟩ = 10 ∧
    hasNonExtSignal ⟨some "ex99a.htm", none, 0⟩ = true :=
  ⟨(C10_extension_alone_insufficient ⟨some "info.htm", some "GRAPHIC", 0⟩ [] ⟨none, none, 0⟩).1
      (by decide) (by decide),
   (C10_extension_alone_insufficient ⟨none, none, 0⟩ [⟨some "ex99a.htm", none, 0⟩]
      ⟨some "ex99a.htm", none, 0⟩).2 (by decide)⟩

/-- After a `removeIf p` sweep no element satisfying `p` remains anywhere
in the forest. -/
theorem removeIf_allOk (p : String → Option String → Bool) (l : NodeList) :
    allElemsOk (fun nm st => !(p nm st)) (removeIf p l) = true := by
  induction l using removeIf.induct p <;> simp_all [removeIf, allElemsOk]

/-- C6 (amended).  The cleaned tree that `clean_html_to_text` extracts its
text from contains no element whose style matches the code's test: the
style with its space characters deleted and lower-cased contains
`display:none`.  Whitespace other than the space character between the
tokens defeats the match. -/
theorem C6_hidden_removed (doc : NodeList) :
    allElemsOk (fun nm st => !(isHiddenElem nm st)) (cleanedTree doc) = true ∧
    clean_html_to_text doc = pyStrip (collapseRuns (get_text (cleanedTree doc))) :=
  ⟨removeIf_allOk isHiddenElem (removeIf isIxTag (removeIf isScriptOrStyle doc)), rfl⟩

/-- C6 (counterexample).  The style `"display\t:none"` (a tab between the
words) matches the spec's whitespace-independent reading, yet the code's
test fails on it, so the element and its content survive: the extracted
text of the document is exactly the hidden `"SECRET"`. -/
theorem C6_counterexample :
    specStyleHidden "display\t:none" = true ∧
    hiddenStyleMatch (some "display\t:none") = false ∧
    clean_html_to_text (nodesOf
      [Node.elem "div" (some "display\t:none") (nodesOf [Node.text "SECRET"])]) = "SECRET" :=
  ⟨by decide, by decide, by decide⟩

/-- C7.  A JSON decode fault after retries propagates out of `get_json` as
an exception, while inside the filing processor every expected "not found"
condition — the manifest fetch failing in any way included — yields `none`
rather than an exception. -/
theorem C7_decode_fault (idxResp fileResp : Nat → Resp) (cik accession : String) (r : Resp) :
    (get_with_retry idxResp 4 = some r → ¬(400 ≤ r.status ∧ r.status < 600) →
      r.jsonBody = none → get_json idxResp = Except.error "JSONDecodeError") ∧
    (∀ e, get_json idxResp = Except.error e →
      download_best_press_release cik accession idxResp fileResp = none) := by
  constructor
  · intro hr hst hbody
    unfold get_json
    rw [hr]
    dsimp only
    rw [if_neg hst, hbody]
  · intro e herr
    have hlist : list_accession_files idxResp = [] := by
      unfold list_accession_files
      rw [herr]
    unfold download_best_press_release
    rw [hlist]
    rfl

/-- C7 (witness): a 200 response whose body is not JSON makes `get_json`
raise, and the filing processor turns the same fault into `none`. -/
theorem C7_witness :
    get_json (fun _ => ⟨200, none, NodeList.nil⟩) = Except.error "JSONDecodeError" ∧
    download_best_press_release "0000789019" "0000950170-24-000001"
      (fun _ => ⟨200, none, NodeList.nil⟩) (fun _ => ⟨200, none, NodeList.nil⟩) = none :=
  ⟨(C7_decode_fault (fun _ => ⟨200, none, NodeList.nil⟩) (fun _ => ⟨200, none, NodeList.nil⟩)
      "0000789019" "0000950170-24-000001" ⟨200, none, NodeList.nil⟩).1
      (by decide) (by decide) (by decide),
   (C7_decode_fault (fun _ => ⟨200, none, NodeList.nil⟩) (fun _ => ⟨200, none, NodeList.nil⟩)
      "0000789019" "0000950170-24-000001" ⟨200, none, NodeList.nil⟩).2
      "JSONDecodeError" (by rfl)⟩

/-- C5.  With a manifest whose filtered candidates are non-empty, an
accepted winner (score at least 20) and a 200 content response, the filing
processor returns `none` exactly when the extracted text is shorter than
1000 characters, and otherwise returns the record built from the winner
and the extracted text. -/
theorem C5_length_gate (cik accession : String) (idxResp fileResp : Nat → Resp)
    (c : Item) (cs : List Item) (r : Resp)
    (hfil : (list_accession_files idxResp).filter (fun it => is_text_file it.name) = c :: cs)
    (hscore : 20 ≤ score_item (pyMax score_item c cs))
    (hr : get_with_retry fileResp 4 = some r)
    (hst : r.status = 200) :
    ((clean_html_to_text r.content).length < 1000 →
      download_best_press_release cik accession idxResp fileResp = none) ∧
    (1000 ≤ (clean_html_to_text r.content).length →
      download_best_press_release cik accession idxResp fileResp =
        some ⟨(pyMax score_item c cs).name.getD "", (pyMax score_item c cs).type.getD "",
          SEC_ARCHIVE ++ cik_short cik ++ "/" ++ accession_clean accession ++ "/" ++
            (pyMax score_item c cs).name.getD "",
          clean_html_to_text r.content⟩) := by
  have hne : list_accession_files idxResp ≠ [] := by
    intro h0
    rw [h0] at hfil
    simp at hfil
  have hemp : (list_accession_files idxResp).isEmpty = false := by
    simpa [List.isEmpty_iff] using hne
  have hdl : download_best_press_release cik accession idxResp fileResp =
      (if (clean_html_to_text r.content).length < 1000 then none
       else some ⟨(pyMax score_item c cs).name.getD "", (pyMax score_item c cs).type.getD "",
          SEC_ARCHIVE ++ cik_short cik ++ "/" ++ accession_clean accession ++ "/" ++
            (pyMax score_item c cs).name.getD "",
          clean_html_to_text r.content⟩) := by
    simp only [download_best_press_release]
    rw [hemp]
    simp only [Bool.false_eq_true, if_false]
    rw [hfil]
    dsimp only
    rw [if_neg (not_lt.mpr hscore), hr]
    dsimp only
    rw [if_neg (show ¬(r.status ≠ 200) from fun hh => hh hst)]
  constructor
  · intro hlen
    rw [hdl, if_pos hlen]
  · intro hlen
    rw [hdl, if_neg (not_lt.mpr hlen)]


/-- `dropWhile` does nothing on a whitespace-free list. -/
theorem dropWhile_no_ws (l : List Char) (h : ∀ c ∈ l, pyIsSpace c = false) :
    l.dropWhile pyIsSpace = l := by
  cases l with
  | nil => rfl
  | cons c cs =>
    rw [List.dropWhile_cons_of_neg]
    simp [h c (List.mem_cons_self c cs)]

/-- `stripTrail` does nothing on a whitespace-free list. -/
theorem stripTrail_no_ws (l : List Char) (h : ∀ c ∈ l, pyIsSpace c = false) :
    stripTrail l = l := by
  induction l with
  | nil => rfl
  | cons c cs ih =>
    have hc := h c (List.mem_cons_self c cs)
    have ih2 := ih fun d hd => h d (List.mem_cons_of_mem c hd)
    simp [stripTrail, hc, ih2]

/-- `collapseGo` does nothing on a whitespace-free list. -/
theorem collapseGo_no_ws (l : List Char) (h : ∀ c ∈ l, pyIsSpace c = false) :
    ∀ b, collapseGo b l = l := by
  induction l with
  | nil => intro b; rfl
  | cons c cs ih =>
    intro b
    simp [collapseGo, h c (List.mem_cons_self c cs),
      ih fun d hd => h d (List.mem_cons_of_mem c hd)]

/-- Extraction from a single whitespace-free, non-empty text node returns
the text unchanged. -/
theorem clean_single_text (s : String) (h : ∀ c ∈ s.data, pyIsSpace c = false)
    (hne : s.data ≠ []) : clean_html_to_text (nodesOf [Node.text s]) = s := by
  have hstrip : pyStrip s = s := by
    show (⟨stripL s.data⟩ : String) = s
    rw [stripL, dropWhile_no_ws s.data h, stripTrail_no_ws s.data h]
  have hsne : ¬s.isEmpty = true := by
    rw [String.isEmpty_iff]
    intro h0
    rw [h0] at hne
    exact hne rfl
  have hget : get_text (nodesOf [Node.text s]) = s := by
    show String.intercalate " " (List.filter (fun x => !x.isEmpty) (List.map pyStrip [s])) = s
    rw [List.map_singleton, hstrip]
    rw [List.filter_cons_of_pos (by simp [hsne])]
    rfl
  show pyStrip (collapseRuns (get_text (cleanedTree (nodesOf [Node.text s])))) = s
  have hclean : cleanedTree (nodesOf [Node.text s]) = nodesOf [Node.text s] := rfl
  rw [hclean, hget]
  show (⟨stripL (collapseRuns s).data⟩ : String) = s
  have hcol : (collapseRuns s).data = s.data := by
    show (collapseGo false s.data) = s.data
    exact collapseGo_no_ws s.data h false
  rw [hcol, stripL, dropWhile_no_ws s.data h, stripTrail_no_ws s.data h]

/-- Extraction from a block of `n + 1` letters `a` returns it unchanged,
and its length is `n + 1`. -/
theorem clean_replicate (n : Nat) :
    clean_html_to_text (nodesOf [Node.text ⟨List.replicate (n + 1) 'a'⟩]) =
      (⟨List.replicate (n + 1) 'a'⟩ : String) ∧
    (⟨List.replicate (n + 1) 'a'⟩ : String).length = n + 1 := by
  constructor
  · refine clean_single_text _ (fun c hc => ?_) (by simp)
    have : c = 'a' := by
      have := List.eq_of_mem_replicate hc
      exact this
    rw [this]
    rfl
  · show (List.replicate (n + 1) 'a').length = n + 1
    simp

/-- C5 (witness): with a winning `EX-99.1` exhibit, a body extracting to
999 characters is rejected and a body extracting to 1000 characters is
accepted with the full record. -/
theorem C5_witness :
    download_best_press_release "0000789019" "0000950170-24-000001"
      (fun _ => ⟨200, some ⟨some [⟨some "ex99.htm", some "EX-99.1", 0⟩]⟩, NodeList.nil⟩)
      (fun _ => ⟨200, none, nodesOf [Node.text ⟨List.replicate 999 'a'⟩]⟩) = none ∧
    download_best_press_release "0000789019" "0000950170-24-000001"
      (fun _ => ⟨200, some ⟨some [⟨some "ex99.htm", some "EX-99.1", 0⟩]⟩, NodeList.nil⟩)
      (fun _ => ⟨200, none, nodesOf [Node.text ⟨List.replicate 1000 'a'⟩]⟩) =
      some ⟨(pyMax score_item ⟨some "ex99.htm", some "EX-99.1", 0⟩ []).name.getD "",
        (pyMax score_item ⟨some "ex99.htm", some "EX-99.1", 0⟩ []).type.getD "",
        SEC_ARCHIVE ++ cik_short "0000789019" ++ "/" ++
          accession_clean "0000950170-24-000001" ++ "/" ++
          (pyMax score_item ⟨some "ex99.htm", some "EX-99.1", 0⟩ []).name.getD "",
        clean_html_to_text (nodesOf [Node.text ⟨List.replicate 1000 'a'⟩])⟩ :=
  ⟨(C5_length_gate "0000789019" "0000950170-24-000001"
      (fun _ => ⟨200, some ⟨some [⟨some "ex99.htm", some "EX-99.1", 0⟩]⟩, NodeList.nil⟩)
      (fun _ => ⟨200, none, nodesOf [Node.text ⟨List.replicate 999 'a'⟩]⟩)
      ⟨some "ex99.htm", some "EX-99.1", 0⟩ []
      ⟨200, none, nodesOf [Node.text ⟨List.replicate 999 'a'⟩]⟩
      (by decide) (by decide) (by rfl) (by rfl)).1
      (by rw [(clean_replicate 998).1, (clean_replicate 998).2]; omega),
   (C5_length_gate "0000789019" "0000950170-24-000001"
      (fun _ => ⟨200, some ⟨some [⟨some "ex99.htm", some "EX-99.1", 0⟩]⟩, NodeList.nil⟩)
      (fun _ => ⟨200, none, nodesOf [Node.text ⟨List.replicate 1000 'a'⟩]⟩)
      ⟨some "ex99.htm", some "EX-99.1", 0⟩ []
      ⟨200, none, nodesOf [Node.text ⟨List.replicate 1000 'a'⟩]⟩
      (by decide) (by decide) (by rfl) (by rfl)).2
      (by rw [(clean_replicate 999).1, (clean_replicate 999).2])⟩

/-! ## Shape lemmas for whitespace collapsing -/

/-- With a non-space head the `collapsedShape` flag is irrelevant. -/
theorem collapsedShape_not_space (b : Bool) (c : Char) (cs : List Char)
    (hc : (c == ' ') = false) :
    collapsedShape b (c :: cs) = (!pyIsSpace c && collapsedShape false cs) := by
  simp [collapsedShape, hc]

/-- A non-whitespace character is in particular not a space. -/
theorem not_space_of_not_ws (c : Char) (h : pyIsSpace c = false) : (c == ' ') = false := by
  cases hq : c == ' '
  · rfl
  · have : c = ' ' := by simpa using hq
    rw [this] at h
    exact absurd h (by decide)

/-- Reading `collapsedShape` off a cons with a non-space head. -/
theorem ws_false_of_shape (b : Bool) (c : Char) (cs : List Char) (hq : (c == ' ') = false)
    (h : collapsedShape b (c :: cs) = true) :
    pyIsSpace c = false ∧ collapsedShape false cs = true := by
  rw [collapsedShape_not_space b c cs hq] at h
  simpa using h

/-- The output of `collapseGo` is in collapsed shape. -/
theorem collapseGo_shape (l : List Char) : ∀ b, collapsedShape b (collapseGo b l) = true := by
  induction l with
  | nil => intro b; rfl
  | cons c cs ih =>
    intro b
    by_cases hc : pyIsSpace c = true
    · cases b with
      | true => simpa [collapseGo, hc] using ih true
      | false =>
        simp only [collapseGo, hc, if_true, ite_true]
        simpa [collapsedShape] using ih true
    · have hns : pyIsSpace c = false := by simpa using hc
      simp only [collapseGo, hns, Bool.false_eq_true, if_false, ite_false]
      rw [collapsedShape_not_space b c _ (not_space_of_not_ws c hns)]
      simp [hns, ih false]

theorem collapsedShape_true_dropWhile (x : List Char)
    (h : collapsedShape true x = true) : x.dropWhile pyIsSpace = x := by
  cases x with
  | nil => rfl
  | cons c cs =>
    have hns : pyIsSpace c = false := by
      by_cases hq : (c == ' ') = true
      · simp [collapsedShape, hq] at h
      · exact (ws_false_of_shape true c cs (by simpa using hq) h).1
    rw [List.dropWhile_cons_of_neg (by simp [hns])]

theorem dropWhile_collapsedShape (l : List Char)
    (h : collapsedShape false l = true) :
    collapsedShape true (l.dropWhile pyIsSpace) = true := by
  cases l with
  | nil => rfl
  | cons c cs =>
    by_cases hq : (c == ' ') = true
    · have hc : c = ' ' := by simpa using hq
      have hcs : collapsedShape true cs = true := by simpa [collapsedShape, hq] using h
      rw [hc, List.dropWhile_cons_of_pos (by decide), collapsedShape_true_dropWhile cs hcs]
      exact hcs
    · have hq2 : (c == ' ') = false := by simpa using hq
      obtain ⟨hns, hcs⟩ := ws_false_of_shape false c cs hq2 h
      rw [List.dropWhile_cons_of_neg (by simp [hns]), collapsedShape_not_space true c cs hq2]
      simp [hns, hcs]

theorem stripTrail_cleanShape (X : List Char) :
    (collapsedShape false X = true → cleanShape 1 (stripTrail X) = true) ∧
    (collapsedShape true X = true →
      stripTrail X = [] ∨ cleanShape 2 (stripTrail X) = true) := by
  induction X with
  | nil => exact ⟨fun _ => rfl, fun _ => Or.inl rfl⟩
  | cons c W ih =>
    constructor
    · intro h
      by_cases hq : (c == ' ') = true
      · have hc : c = ' ' := by simpa using hq
        have hW : collapsedShape true W = true := by simpa [collapsedShape, hq] using h
        rcases ih.2 hW with hemp | hcs
        · simp [stripTrail, hemp, hc, pyIsSpace, cleanShape]
        · have hne : stripTrail W ≠ [] := by
            intro h0
            rw [h0] at hcs
            exact absurd hcs (by decide)
          have hie : (stripTrail W).isEmpty = false := by simpa [List.isEmpty_iff] using hne
          simp [stripTrail, hie, hc, cleanShape, hcs]
      · have hq2 : (c == ' ') = false := by simpa using hq
        obtain ⟨hns, hW⟩ := ws_false_of_shape false c W hq2 h
        have hcl := ih.1 hW
        simp [stripTrail, hns, cleanShape, hq2, hcl]
    · intro h
      by_cases hq : (c == ' ') = true
      · simp [collapsedShape, hq] at h
      · have hq2 : (c == ' ') = false := by simpa using hq
        obtain ⟨hns, hW⟩ := ws_false_of_shape true c W hq2 h
        have hcl := ih.1 hW
        right
        simp [stripTrail, hns, cleanShape, hcl]

theorem stripL_cleanShape (l : List Char) (h : collapsedShape false l = true) :
    cleanShape 0 (stripL l) = true := by
  rw [stripL]
  have hY := dropWhile_collapsedShape l h
  rcases hX : l.dropWhile pyIsSpace with _ | ⟨c, W⟩
  · rfl
  · rw [hX] at hY
    by_cases hq : (c == ' ') = true
    · simp [collapsedShape, hq] at hY
    · have hq2 : (c == ' ') = false := by simpa using hq
      obtain ⟨hns, hW⟩ := ws_false_of_shape true c W hq2 hY
      have hcl := (stripTrail_cleanShape W).1 hW
      simp [stripTrail, hns, cleanShape, hcl]

theorem collapseGo_fix_states (z : List Char) :
    (cleanShape 1 z = true → collapseGo false z = z) ∧
    (cleanShape 2 z = true → collapseGo true z = z) := by
  induction z with
  | nil => exact ⟨fun _ => rfl, fun _ => rfl⟩
  | cons c w ih =>
    constructor
    · intro h
      by_cases hq : (c == ' ') = true
      · have hc : c = ' ' := by simpa using hq
        have hw : cleanShape 2 w = true := by simpa [cleanShape, hq] using h
        rw [hc]
        simp only [collapseGo, show pyIsSpace ' ' = true from rfl, if_true, ite_true,
          Bool.false_eq_true, if_false, ite_false]
        rw [ih.2 hw]
      · have hq2 : (c == ' ') = false := by simpa using hq
        have h2 : (!pyIsSpace c && cleanShape 1 w) = true := by simpa [cleanShape, hq2] using h
        have hns : pyIsSpace c = false := by
          cases hp : pyIsSpace c
          · rfl
          · simp [hp] at h2
        have hw : cleanShape 1 w = true := by simpa [hns] using h2
        simp only [collapseGo, hns, Bool.false_eq_true, if_false, ite_false]
        rw [ih.1 hw]
    · intro h
      have h2 : (!pyIsSpace c && cleanShape 1 w) = true := by simpa [cleanShape] using h
      have hns : pyIsSpace c = false := by
        cases hp : pyIsSpace c
        · rfl
        · simp [hp] at h2
      have hw : cleanShape 1 w = true := by simpa [hns] using h2
      simp only [collapseGo, hns, Bool.false_eq_true, if_false, ite_false]
      rw [ih.1 hw]

theorem collapseGo_fix (z : List Char) (h : cleanShape 0 z = true) :
    collapseGo false z = z := by
  cases z with
  | nil => rfl
  | cons c w =>
    have h2 : (!pyIsSpace c && cleanShape 1 w) = true := by simpa [cleanShape] using h
    have hns : pyIsSpace c = false := by
      cases hp : pyIsSpace c
      · rfl
      · simp [hp] at h2
    have hw : cleanShape 1 w = true := by simpa [hns] using h2
    simp only [collapseGo, hns, Bool.false_eq_true, if_false, ite_false]
    rw [(collapseGo_fix_states w).1 hw]

theorem stripTrail_fix_states (z : List Char) :
    (cleanShape 1 z = true → stripTrail z = z) ∧
    (cleanShape 2 z = true → stripTrail z = z ∧ z ≠ []) := by
  induction z with
  | nil => exact ⟨fun _ => rfl, fun h => absurd h (by decide)⟩
  | cons c w ih =>
    constructor
    · intro h
      by_cases hq : (c == ' ') = true
      · have hc : c = ' ' := by simpa using hq
        have hw : cleanShape 2 w = true := by simpa [cleanShape, hq] using h
        obtain ⟨hfix, hne⟩ := ih.2 hw
        have hie : w.isEmpty = false := by simpa [List.isEmpty_iff] using hne
        have hie2 : (stripTrail w).isEmpty = false := by rw [hfix]; exact hie
        simp [stripTrail, hie2, hfix, hne]
      · have hq2 : (c == ' ') = false := by simpa using hq
        have h2 : (!pyIsSpace c && cleanShape 1 w) = true := by simpa [cleanShape, hq2] using h
        have hns : pyIsSpace c = false := by
          cases hp : pyIsSpace c
          · rfl
          · simp [hp] at h2
        have hw : cleanShape 1 w = true := by simpa [hns] using h2
        simp [stripTrail, hns, ih.1 hw]
    · intro h
      have h2 : (!pyIsSpace c && cleanShape 1 w) = true := by simpa [cleanShape] using h
      have hns : pyIsSpace c = false := by
        cases hp : pyIsSpace c
        · rfl
        · simp [hp] at h2
      have hw : cleanShape 1 w = true := by simpa [hns] using h2
      exact ⟨by simp [stripTrail, hns, ih.1 hw], by simp⟩

theorem stripL_fix (z : List Char) (h : cleanShape 0 z = true) : stripL z = z := by
  cases z with
  | nil => rfl
  | cons c w =>
    have h2 : (!pyIsSpace c && cleanShape 1 w) = true := by simpa [cleanShape] using h
    have hns : pyIsSpace c = false := by
      cases hp : pyIsSpace c
      · rfl
      · simp [hp] at h2
    have hw : cleanShape 1 w = true := by simpa [hns] using h2
    rw [stripL, List.dropWhile_cons_of_neg (by simp [hns])]
    simp [stripTrail, hns, (stripTrail_fix_states w).1 hw]

/-- The output of `re.sub` plus `strip` is always in clean shape. -/
theorem cleanOut_shape (x : String) :
    cleanShape 0 (pyStrip (collapseRuns x)).data = true := by
  show cleanShape 0 (stripL (collapseGo false x.data)) = true
  exact stripL_cleanShape _ (collapseGo_shape x.data false)

/-- Clean-shaped text is a fixed point of whitespace collapsing and of
stripping. -/
theorem clean_fix (t : String) (h : cleanShape 0 t.data = true) :
    pyStrip (collapseRuns t) = t ∧ pyStrip t = t := by
  constructor
  · show (⟨stripL (collapseGo false t.data)⟩ : String) = t
    rw [collapseGo_fix t.data h, stripL_fix t.data h]
  · show (⟨stripL t.data⟩ : String) = t
    rw [stripL_fix t.data h]

theorem flushText_cons (c : Char) (buf cs : List Char) :
    flushText (c :: buf) cs = flushText buf (c :: cs) := by
  have h : (c :: buf).reverse ++ cs = buf.reverse ++ c :: cs := by simp
  simp [flushText, h]

/-- On input free of `<` and `&` the tokenizer emits the whole input as a
single text token. -/
theorem tokAux_plain : ∀ (fuel : Nat) (cs buf : List Char),
    (∀ c ∈ cs, c ≠ '<' ∧ c ≠ '&') →
    tokAux fuel cs buf = flushText buf cs := by
  intro fuel
  induction fuel with
  | zero => intro cs buf _; rfl
  | succ n ih =>
    intro cs buf h
    cases cs with
    | nil => rfl
    | cons c rest =>
      have hc := h c (List.mem_cons_self c rest)
      have hamp : ¬((c == '&') = true) := by simp [hc.2]
      have hlt : ¬((c == '<') = true) := by simp [hc.1]
      simp only [tokAux, if_neg hamp, if_neg hlt]
      rw [ih rest (c :: buf) fun d hd => h d (List.mem_cons_of_mem c hd)]
      exact flushText_cons c buf rest

theorem tokenize_plain (t : String) (h : noMarkupChars t = true) :
    tokenize t = flushText [] t.data := by
  apply tokAux_plain
  intro c hc
  simp only [noMarkupChars, List.all_eq_true] at h
  have hcc := h c hc
  constructor
  · intro h0; rw [h0] at hcc; exact absurd hcc (by decide)
  · intro h0; rw [h0] at hcc; exact absurd hcc (by decide)

theorem flushText_nil_of_ne (t : String) (h : t.data ≠ []) :
    flushText [] t.data = [Tok.textT t] := by
  have hie : t.data.isEmpty = false := by simpa [List.isEmpty_iff] using h
  simp [flushText, hie]

/-- C8 (counterexample).  Entity references decode into text on the first
pass, and the decoded text re-parses as markup on the second pass: the
input `"a &lt;script&gt;zap&lt;/script&gt; b"` extracts to
`"a <script>zap</script> b"`, whose own extraction is `"a b"`.  So
`extractText` applied to its own output does not return it unchanged. -/
theorem C8_counterexample :
    clean_html_to_text_str "a &lt;script&gt;zap&lt;/script&gt; b" =
      "a <script>zap</script> b" ∧
    clean_html_to_text_str (clean_html_to_text_str "a &lt;script&gt;zap&lt;/script&gt; b") =
      "a b" ∧
    clean_html_to_text_str (clean_html_to_text_str "a &lt;script&gt;zap&lt;/script&gt; b") ≠
      clean_html_to_text_str "a &lt;script&gt;zap&lt;/script&gt; b" :=
  ⟨by decide, by decide, by decide⟩

/-- C8 (amended).  `extractText` is idempotent on outputs that contain no
markup-significant characters: whenever the extracted text contains
neither `<` nor `&`, a second extraction returns it unchanged.  Outputs
that do contain them (possible through character-reference decoding) may
shrink further, as the counterexample shows. -/
theorem C8_idempotent_on_plain (s : String)
    (h : noMarkupChars (clean_html_to_text_str s) = true) :
    clean_html_to_text_str (clean_html_to_text_str s) = clean_html_to_text_str s := by
  have hshape : cleanShape 0 (clean_html_to_text_str s).data = true :=
    cleanOut_shape (get_text (cleanedTree (parseHtml s)))
  set t := clean_html_to_text_str s with htdef
  have htok : tokenize t = flushText [] t.data := tokenize_plain t h
  rcases hdat : t.data with _ | ⟨c, rest⟩
  · have ht0 : t = "" := by
      apply String.ext
      rw [hdat]
    rw [ht0]
    rfl
  · have hdne : t.data ≠ [] := by rw [hdat]; simp
    have hfe : t.isEmpty = false := by
      cases hx : t.isEmpty
      · rfl
      · exact absurd (by simpa [List.isEmpty_iff, String.isEmpty_iff] using hx : t = "")
          (fun h0 => hdne (by rw [h0]))
    have hparse : parseHtml t = nodesOf [Node.text t] := by
      unfold parseHtml
      rw [htok, flushText_nil_of_ne t hdne]
      rfl
    have hstrip : pyStrip t = t := (clean_fix t hshape).2
    show clean_html_to_text (parseHtml t) = t
    rw [hparse]
    show pyStrip (collapseRuns (get_text (cleanedTree (nodesOf [Node.text t])))) = t
    have hct : cleanedTree (nodesOf [Node.text t]) = nodesOf [Node.text t] := rfl
    rw [hct]
    have hget : get_text (nodesOf [Node.text t]) = t := by
      show String.intercalate " "
        ((List.map pyStrip (textsOf (nodesOf [Node.text t]))).filter (fun x => !x.isEmpty)) = t
      have htx : textsOf (nodesOf [Node.text t]) = [t] := rfl
      rw [htx, List.map_singleton, hstrip, List.filter_cons_of_pos (by simp [hfe])]
      rfl
    rw [hget]
    exact (clean_fix t hshape).1

/-- C8 (witness): a typical already-clean output, `"hello world"`, is a
fixed point of the extraction. -/
theorem C8_witness :
    clean_html_to_text_str (clean_html_to_text_str "  hello   world ") =
      clean_html_to_text_str "  hello   world " :=
  C8_idempotent_on_plain "  hello   world " (by decide)

end Sec8K
